import Mathlib

/-
  Verification of the crawler topology store from `src/.crawler/src/known_network.rs`
  (snarkOS crawler).  The Rust code is shallowly embedded: `SocketAddr` becomes `Nat`,
  `OffsetDateTime` becomes an `Int` count of nanoseconds, `time::Duration` becomes an
  `Int` count of nanoseconds, `HashMap<SocketAddr, NodeMeta>` becomes an association
  list keyed by address, and `HashSet<Connection>` becomes a list of connections whose
  operations are keyed on the unordered endpoint pair.  The `u8` counters are `Nat`
  incremented modulo 2 ^ 8.  Configuration constants from `constants.rs` (not under
  `src/`) are carried by a `Config` record, matching the specification, which calls
  them injected configuration knobs.
-/

set_option autoImplicit false

namespace Crawler

/-- Network addresses, abstracting `SocketAddr`. -/
abbrev Addr := Nat

/-- Points in time, abstracting `OffsetDateTime` as nanoseconds since some epoch. -/
abbrev Timestamp := Int

/-- Nanoseconds in one minute. -/
def nsPerMin : Int := 60000000000

/-- Nanoseconds in one hour. -/
def nsPerHour : Int := 3600000000000

/-- Nanoseconds in one millisecond. -/
def nsPerMs : Int := 1000000

/-- `time::Duration::whole_minutes`: whole minutes of a nanosecond duration,
truncated toward zero. -/
def wholeMinutes (d : Int) : Int := d.tdiv nsPerMin

/-- `time::Duration::whole_hours`: whole hours of a nanosecond duration,
truncated toward zero. -/
def wholeHours (d : Int) : Int := d.tdiv nsPerHour

/-- `time::Duration::whole_milliseconds`: whole milliseconds of a nanosecond
duration, truncated toward zero. -/
def wholeMilliseconds (d : Int) : Int := d.tdiv nsPerMs

/-- The `as i64` cast applied in `get_node_summary`: wrap into the i64 range. -/
def asI64 (x : Int) : Int := (x + 2 ^ 63) % 2 ^ 64 - 2 ^ 63

/-- The configuration constants consumed from `constants.rs` (outside `src/`);
the specification lists them as externally injected policy knobs. -/
structure Config where
  crawlIntervalMins : Int
  staleCutoffHrs : Int
  maxConnectionFailureCount : Nat
  desiredPeerSetCount : Nat
deriving DecidableEq

/-- `NodeState`: the current state of a crawled node.  `NodeType` and `State`
are opaque enumerations, embedded as `Nat`. -/
structure NodeState where
  node_type : Nat
  version : Nat
  height : Nat
  state : Nat
deriving DecidableEq

/-- `NodeMeta`: node information collected while crawling.  The two counters are
`u8` in the source, so every increment is taken modulo 2 ^ 8. -/
structure NodeMeta where
  listening_addr : Addr
  state : Option NodeState
  timestamp : Option Timestamp
  received_peer_sets : Nat
  connection_failures : Nat
  handshake_time : Option Int
deriving DecidableEq

/-- `NodeMeta::new`. -/
def NodeMeta.new (a : Addr) : NodeMeta :=
  { listening_addr := a
    state := none
    timestamp := none
    received_peer_sets := 0
    connection_failures := 0
    handshake_time := none }

/-- `NodeMeta::reset_crawl_state`, with the wall-clock read passed in as `now`. -/
def NodeMeta.reset_crawl_state (now : Timestamp) (m : NodeMeta) : NodeMeta :=
  { m with received_peer_sets := 0, connection_failures := 0, timestamp := some now }

/-- `NodeMeta::needs_refreshing`, with the wall-clock read passed in as `now`. -/
def NodeMeta.needs_refreshing (cfg : Config) (now : Timestamp) (m : NodeMeta) : Bool :=
  match m.timestamp with
  | some t =>
      let crawl_interval : Int :=
        if m.state.isSome then cfg.crawlIntervalMins else (m.connection_failures : Int)
      decide (wholeMinutes (now - t) > crawl_interval)
  | none => true

/-- Modelled from the spec: the `Connection` type of `connection.rs` (a file of this
repository that is not under `src/`).  It is an unordered pair of addresses plus a
`last_seen` timestamp; equality and hashing depend only on the unordered pair. -/
structure Connection where
  source : Addr
  target : Addr
  last_seen : Timestamp
deriving DecidableEq

/-- Modelled from the spec: `Connection::new` records the two endpoints and stamps
the current time; the wall-clock read is passed in as `now`. -/
def Connection.new (s t : Addr) (now : Timestamp) : Connection :=
  { source := s, target := t, last_seen := now }

/-- Modelled from the spec: `Connection` equality ignores the order of the pair and
the timestamp. -/
def Connection.sameEndpoints (c d : Connection) : Bool :=
  decide ((c.source = d.source ∧ c.target = d.target) ∨
          (c.source = d.target ∧ c.target = d.source))

/-- `HashSet<Connection>` membership, keyed on the unordered endpoint pair. -/
def containsConn (l : List Connection) (c : Connection) : Bool :=
  l.any (fun d => Connection.sameEndpoints c d)

/-- `HashSet::replace`: insert `c`, displacing any stored connection with the same
endpoint pair (so the `last_seen` timestamp is overwritten). -/
def replaceConn (l : List Connection) (c : Connection) : List Connection :=
  c :: l.filter (fun d => ! Connection.sameEndpoints c d)

/-- `HashSet::get` keyed on the unordered pair, as used by `get_connection`. -/
def getConn (l : List Connection) (s t : Addr) : Option Connection :=
  l.find? (fun d => Connection.sameEndpoints (Connection.new s t 0) d)

/-- Modelled from the spec: `nodes_from_connections` of `connection.rs` (not under
`src/`) returns every address appearing as an endpoint of a known connection. -/
def nodes_from_connections (l : List Connection) : List Addr :=
  l.foldr (fun c acc => c.source :: c.target :: acc) []

/-- The node registry `HashMap<SocketAddr, NodeMeta>`, as an association list. -/
abbrev Nodes := List (Addr × NodeMeta)

/-- `HashMap::get`. -/
def lookupNode : Nodes → Addr → Option NodeMeta
  | [], _ => none
  | p :: ps, a => if p.1 = a then some p.2 else lookupNode ps a

/-- `HashMap::insert`: replace the value when the key is present, otherwise add
the binding. -/
def insertNode : Nodes → Addr → NodeMeta → Nodes
  | [], a, m => [(a, m)]
  | p :: ps, a, m => if p.1 = a then (a, m) :: ps else p :: insertNode ps a m

/-- `HashMap::entry(a).or_insert_with(|| NodeMeta::new(a))` followed by an update
of the entry with `f`. -/
def modifyNode : Nodes → Addr → (NodeMeta → NodeMeta) → Nodes
  | [], a, f => [(a, f (NodeMeta.new a))]
  | p :: ps, a, f => if p.1 = a then (p.1, f p.2) :: ps else p :: modifyNode ps a f

/-- `KnownNetwork`: the registry of crawled nodes and the set of known
connections between them.  The `RwLock`s are dropped: in the sequential
embedding each operation is one atomic step. -/
structure KnownNetwork where
  nodes : Nodes
  connections : List Connection
deriving DecidableEq

/-- `KnownNetwork::default()`: the empty store. -/
def KnownNetwork.empty : KnownNetwork :=
  { nodes := [], connections := [] }

/-- `KnownNetwork::add_node`: `self.nodes.write().insert(addr, NodeMeta::new(addr))`. -/
def KnownNetwork.add_node (a : Addr) (k : KnownNetwork) : KnownNetwork :=
  { k with nodes := insertNode k.nodes a (NodeMeta.new a) }

/-- The removal filter of `update_connections`: a connection is slated for removal
when it is not among the newly reported connections (that is the `HashSet`
difference), one of its endpoints is the source, and its `last_seen` is more than
the stale cutoff old. -/
def removeCond (cfg : Config) (now : Timestamp) (source : Addr)
    (new_connections : List Connection) (c : Connection) : Bool :=
  ! containsConn new_connections c &&
    (decide (c.source = source) || decide (c.target = source)) &&
    decide (wholeHours (now - c.last_seen) > cfg.staleCutoffHrs)

/-- The backfill loop at the end of `update_connections`: every address found as
an endpoint of a connection and missing from the registry gets a fresh record. -/
def backfill : Nodes → List Addr → Nodes
  | ns, [] => ns
  | ns, a :: rest =>
      backfill (if (lookupNode ns a).isSome then ns else ns ++ [(a, NodeMeta.new a)]) rest

/-- The removal phase of `update_connections`: compute `connections_to_remove`
and, when it is not empty, retain only the connections outside it (the
`HashSet::retain` membership test is keyed on the unordered endpoint pair,
like every `HashSet<Connection>` lookup). -/
def connsAfterRemoval (cfg : Config) (now : Timestamp) (source : Addr)
    (peers : List Addr) (conns : List Connection) : List Connection :=
  let new_connections := peers.map (fun p => Connection.new source p now)
  let connections_to_remove := conns.filter (removeCond cfg now source new_connections)
  if connections_to_remove.isEmpty then conns
  else conns.filter (fun c => ! containsConn connections_to_remove c)

/-- `KnownNetwork::update_connections`, with the wall-clock reads passed in as
`now`: remove the stale unreported connections touching the source, upsert the
reported ones, and backfill records for every connection endpoint. -/
def KnownNetwork.update_connections (cfg : Config) (now : Timestamp) (source : Addr)
    (peers : List Addr) (k : KnownNetwork) : KnownNetwork :=
  let new_connections := peers.map (fun p => Connection.new source p now)
  let conns2 := new_connections.foldl replaceConn
    (connsAfterRemoval cfg now source peers k.connections)
  { nodes := backfill k.nodes (nodes_from_connections conns2), connections := conns2 }

/-- `KnownNetwork::received_ping`, with the wall-clock read passed in as `now`. -/
def KnownNetwork.received_ping (now : Timestamp) (source : Addr)
    (node_type version state height : Nat) (k : KnownNetwork) : KnownNetwork :=
  { k with
    nodes := modifyNode k.nodes source (fun m =>
      { m with
        state := some { node_type := node_type, version := version,
                        height := height, state := state }
        timestamp := some now }) }

/-- `KnownNetwork::received_peers`, with the wall-clock read passed in as `now`.
The `u8` counter bump `received_peer_sets += 1` wraps modulo 2 ^ 8. -/
def KnownNetwork.received_peers (cfg : Config) (now : Timestamp) (source : Addr)
    (addrs : List Addr) (k : KnownNetwork) : KnownNetwork :=
  let k1 := k.update_connections cfg now source addrs
  { k1 with
    nodes := modifyNode k1.nodes source (fun m =>
      { m with
        received_peer_sets := (m.received_peer_sets + 1) % 2 ^ 8
        timestamp := some now }) }

/-- `KnownNetwork::connected_to_node`, with the wall-clock read passed in as
`now`.  The `u8` counter bump `connection_failures += 1` wraps modulo 2 ^ 8. -/
def KnownNetwork.connected_to_node (now : Timestamp) (source : Addr)
    (connection_init_timestamp : Timestamp) (connection_succeeded : Bool)
    (k : KnownNetwork) : KnownNetwork :=
  { k with
    nodes := modifyNode k.nodes source (fun m =>
      let m1 := { m with timestamp := some connection_init_timestamp }
      if connection_succeeded then
        { m1 with
          connection_failures := 0
          handshake_time := some (now - connection_init_timestamp) }
      else
        { m1 with connection_failures := (m1.connection_failures + 1) % 2 ^ 8 }) }

/-- `KnownNetwork::should_be_connected_to`, with the wall-clock read passed in
as `now`. -/
def KnownNetwork.should_be_connected_to (cfg : Config) (now : Timestamp) (a : Addr)
    (k : KnownNetwork) : Bool :=
  match lookupNode k.nodes a with
  | some m => m.needs_refreshing cfg now
  | none => true

/-- `KnownNetwork::addrs_to_connect`, with the wall-clock read passed in as
`now`. -/
def KnownNetwork.addrs_to_connect (cfg : Config) (now : Timestamp)
    (k : KnownNetwork) : List Addr :=
  (k.nodes.filter (fun p => p.2.needs_refreshing cfg now)).map (fun p => p.1)

/-- The selection test of `addrs_to_disconnect`: the state has been received and
enough peer lists have been received. -/
def shouldDisconnect (cfg : Config) (m : NodeMeta) : Bool :=
  m.state.isSome && decide (cfg.desiredPeerSetCount ≤ m.received_peer_sets)

/-- Phase one of `addrs_to_disconnect`: `peers.retain(|_, meta|
meta.connection_failures <= MAX_CONNECTION_FAILURE_COUNT)`. -/
def retainedNodes (cfg : Config) (ns : Nodes) : Nodes :=
  ns.filter (fun p => decide (p.2.connection_failures ≤ cfg.maxConnectionFailureCount))

/-- The addresses collected by phase two of `addrs_to_disconnect`. -/
def discAddrs (cfg : Config) (ns : Nodes) : List Addr :=
  ((retainedNodes cfg ns).filter (fun p => shouldDisconnect cfg p.2)).map (fun p => p.1)

/-- The registry produced by phase two of `addrs_to_disconnect`: every selected
record has its crawl state reset in place. -/
def discNodes (cfg : Config) (now : Timestamp) (ns : Nodes) : Nodes :=
  (retainedNodes cfg ns).map (fun p =>
    if shouldDisconnect cfg p.2 then (p.1, p.2.reset_crawl_state now) else p)

/-- `KnownNetwork::addrs_to_disconnect`, with the wall-clock read passed in as
`now`; returns the produced address list together with the mutated store.
Phase one retains only the records within the failure bound; phase two resets
the crawl state of every selected record and collects its address. -/
def KnownNetwork.addrs_to_disconnect (cfg : Config) (now : Timestamp)
    (k : KnownNetwork) : List Addr × KnownNetwork :=
  (discAddrs cfg k.nodes, { k with nodes := discNodes cfg now k.nodes })

/-- `KnownNetwork::has_connections`. -/
def KnownNetwork.has_connections (k : KnownNetwork) : Bool :=
  ! k.connections.isEmpty

/-- `KnownNetwork::get_connection`. -/
def KnownNetwork.get_connection (s t : Addr) (k : KnownNetwork) : Option Connection :=
  getConn k.connections s t

/-- `NetworkSummary`: the histograms are embedded as maps from the (numeric)
key to an optional count, mirroring `HashMap<_, usize>`. -/
structure NetworkSummary where
  num_known_nodes : Nat
  num_known_connections : Nat
  nodes_pending_state : Nat
  types : Nat → Option Nat
  versions : Nat → Option Nat
  states : Nat → Option Nat
  heights : Nat → Option Nat
  avg_handshake_time_ms : Option Int

/-- `HashMap::entry(key).and_modify(|c| *c += 1).or_insert(1)`. -/
def histIncr (h : Nat → Option Nat) (key : Nat) : Nat → Option Nat :=
  fun x =>
    if x = key then
      match h key with
      | some c => some (c + 1)
      | none => some 1
    else h x

/-- The empty histogram. -/
def emptyHist : Nat → Option Nat := fun _ => none

/-- The handshake-duration sample collected by the loop in `get_node_summary`:
one entry per record whose `handshake_time` is set. -/
def KnownNetwork.handshake_times (k : KnownNetwork) : List Int :=
  (k.nodes.map (fun p => p.2)).filterMap (fun m => m.handshake_time)

/-- `KnownNetwork::get_node_summary`.  The single pass of the source over
`nodes.values()` is split into one pass per field; every field is a
permutation-invariant aggregate, so the result agrees with the source. -/
def KnownNetwork.get_node_summary (k : KnownNetwork) : NetworkSummary :=
  let metas := k.nodes.map (fun p => p.2)
  let stated := metas.filterMap (fun m => m.state)
  let handshake_times := k.handshake_times
  { num_known_nodes := k.nodes.length
    num_known_connections := k.connections.length
    nodes_pending_state := (metas.filter (fun m => ! m.state.isSome)).length
    types := stated.foldl (fun h s => histIncr h s.node_type) emptyHist
    versions := stated.foldl (fun h s => histIncr h s.version) emptyHist
    states := stated.foldl (fun h s => histIncr h s.state) emptyHist
    heights := stated.foldl (fun h s => histIncr h s.height) emptyHist
    avg_handshake_time_ms :=
      if handshake_times.isEmpty then none
      else
        some ((asI64 (wholeMilliseconds (handshake_times.foldl (fun a b => a + b) 0))).tdiv
          (handshake_times.length : Int)) }

/-- One observable operation on the store, carrying the wall-clock values the
source reads from `OffsetDateTime::now_utc()`. -/
inductive Op where
  | addNode (a : Addr)
  | ping (now : Timestamp) (source : Addr) (node_type version state height : Nat)
  | peerList (now : Timestamp) (source : Addr) (addrs : List Addr)
  | outcome (now : Timestamp) (source : Addr) (init_ts : Timestamp) (succeeded : Bool)
  | disconnectQuery (now : Timestamp)
deriving DecidableEq

/-- Applying one operation to the store. -/
def Op.apply (cfg : Config) (op : Op) (k : KnownNetwork) : KnownNetwork :=
  match op with
  | .addNode a => k.add_node a
  | .ping now s nt v st h => k.received_ping now s nt v st h
  | .peerList now s addrs => k.received_peers cfg now s addrs
  | .outcome now s ts succ => k.connected_to_node now s ts succ
  | .disconnectQuery now => (k.addrs_to_disconnect cfg now).2

/-- Whether the operation is `add_node`. -/
def Op.isAddNode : Op → Bool
  | .addNode _ => true
  | _ => false

/-- Whether the operation is the disconnect-candidate query. -/
def Op.isDisconnectQuery : Op → Bool
  | .disconnectQuery _ => true
  | _ => false

/-- Running a sequence of operations from the empty store. -/
def run (cfg : Config) (ops : List Op) : KnownNetwork :=
  ops.foldl (fun k op => op.apply cfg k) KnownNetwork.empty

/-- Key uniqueness of the registry: every reachable store satisfies it because
`HashMap` keys are unique; stated as a hypothesis where a claim needs it. -/
abbrev nodesWF (ns : Nodes) : Prop :=
  (ns.map (fun p => p.1)).Nodup

/-- Pair uniqueness of the connection list: every reachable store satisfies it
because `HashSet<Connection>` holds one entry per unordered endpoint pair. -/
abbrev connsWF (l : List Connection) : Prop :=
  l.Pairwise (fun c d => Connection.sameEndpoints c d = false)

/-- Every endpoint of a known connection has a record in the registry
(the invariant of claim C7), as a decidable check. -/
def linkEndpointsRegistered (k : KnownNetwork) : Bool :=
  k.connections.all (fun c =>
    (lookupNode k.nodes c.source).isSome && (lookupNode k.nodes c.target).isSome)

/- Association-list lemmas about the registry operations. -/

theorem lookupNode_insert_self (ns : Nodes) (a : Addr) (m : NodeMeta) :
    lookupNode (insertNode ns a m) a = some m := by
  induction ns with
  | nil => simp [insertNode, lookupNode]
  | cons p ps ih =>
    by_cases h : p.1 = a
    · simp [insertNode, lookupNode, h]
    · simp [insertNode, lookupNode, h, ih]

theorem lookupNode_insert_ne (ns : Nodes) (a b : Addr) (m : NodeMeta) (h : b ≠ a) :
    lookupNode (insertNode ns a m) b = lookupNode ns b := by
  induction ns with
  | nil => simp [insertNode, lookupNode, Ne.symm h]
  | cons p ps ih =>
    by_cases hp : p.1 = a
    · simp [insertNode, lookupNode, hp, Ne.symm h]
    · simp [insertNode, lookupNode, hp, ih]

theorem insertNode_insertNode (ns : Nodes) (a : Addr) (m m' : NodeMeta) :
    insertNode (insertNode ns a m) a m' = insertNode ns a m' := by
  induction ns with
  | nil => simp [insertNode]
  | cons p ps ih =>
    by_cases h : p.1 = a
    · simp [insertNode, h]
    · simp [insertNode, h, ih]

theorem lookupNode_modify_self (ns : Nodes) (a : Addr) (f : NodeMeta → NodeMeta) :
    lookupNode (modifyNode ns a f) a =
      some (f ((lookupNode ns a).getD (NodeMeta.new a))) := by
  induction ns with
  | nil => simp [modifyNode, lookupNode]
  | cons p ps ih =>
    by_cases h : p.1 = a
    · simp [modifyNode, lookupNode, h]
    · simp [modifyNode, lookupNode, h, ih]

theorem lookupNode_modify_ne (ns : Nodes) (a b : Addr) (f : NodeMeta → NodeMeta)
    (h : b ≠ a) : lookupNode (modifyNode ns a f) b = lookupNode ns b := by
  induction ns with
  | nil => simp [modifyNode, lookupNode, Ne.symm h]
  | cons p ps ih =>
    by_cases hp : p.1 = a
    · simp [modifyNode, lookupNode, hp, Ne.symm h]
    · simp [modifyNode, lookupNode, hp, ih]

theorem lookupNode_append (ns ms : Nodes) (a : Addr) :
    lookupNode (ns ++ ms) a =
      match lookupNode ns a with
      | some m => some m
      | none => lookupNode ms a := by
  induction ns with
  | nil => simp [lookupNode]
  | cons p ps ih =>
    by_cases h : p.1 = a <;> simp [lookupNode, h, ih]

theorem backfill_pres (l : List Addr) (ns : Nodes) (a : Addr) (m : NodeMeta)
    (h : lookupNode ns a = some m) : lookupNode (backfill ns l) a = some m := by
  induction l generalizing ns with
  | nil => simpa [backfill] using h
  | cons x rest ih =>
    simp only [backfill]
    by_cases hx : (lookupNode ns x).isSome
    · simp only [hx, if_pos]
      exact ih ns h
    · simp only [hx, if_neg, Bool.not_eq_true]
      apply ih
      rw [lookupNode_append, h]

theorem backfill_isSome (l : List Addr) (ns : Nodes) (a : Addr)
    (h : (lookupNode ns a).isSome) : (lookupNode (backfill ns l) a).isSome := by
  obtain ⟨m, hm⟩ := Option.isSome_iff_exists.mp h
  rw [backfill_pres l ns a m hm]
  rfl

theorem backfill_covers (l : List Addr) (ns : Nodes) (a : Addr) (h : a ∈ l) :
    (lookupNode (backfill ns l) a).isSome := by
  induction l generalizing ns with
  | nil => cases h
  | cons x rest ih =>
    rcases List.mem_cons.mp h with hax | hax
    · subst hax
      simp only [backfill]
      by_cases hx : (lookupNode ns a).isSome
      · simp only [hx, if_pos]
        exact backfill_isSome rest ns a hx
      · simp only [hx, if_neg, Bool.not_eq_true]
        apply backfill_isSome
        rw [lookupNode_append]
        cases hl : lookupNode ns a with
        | some m => rw [hl] at hx; simp at hx
        | none => simp [lookupNode]
    · simp only [backfill]
      split <;> exact ih _ hax

theorem lookupNode_eq_none (ns : Nodes) (a : Addr)
    (h : a ∉ ns.map (fun p => p.1)) : lookupNode ns a = none := by
  induction ns with
  | nil => rfl
  | cons p ps ih =>
    simp only [List.map_cons, List.mem_cons] at h
    push_neg at h
    simp [lookupNode, Ne.symm h.1, ih h.2]

theorem mem_keys_of_lookup_some (ns : Nodes) (a : Addr) (m : NodeMeta)
    (h : lookupNode ns a = some m) : a ∈ ns.map (fun p => p.1) := by
  by_contra hc
  rw [lookupNode_eq_none ns a hc] at h
  cases h

/- Lemmas about the unordered-pair keyed connection set. -/

theorem sameEndpoints_refl (c : Connection) : Connection.sameEndpoints c c = true := by
  simp [Connection.sameEndpoints]

theorem sameEndpoints_symm (c d : Connection) :
    Connection.sameEndpoints c d = Connection.sameEndpoints d c := by
  simp only [Connection.sameEndpoints, decide_eq_decide]
  constructor <;> rintro (⟨h1, h2⟩ | ⟨h1, h2⟩) <;> simp [h1, h2]

theorem sameEndpoints_trans (c d e : Connection)
    (h1 : Connection.sameEndpoints c d = true)
    (h2 : Connection.sameEndpoints d e = true) :
    Connection.sameEndpoints c e = true := by
  simp only [Connection.sameEndpoints, decide_eq_true_eq] at h1 h2 ⊢
  rcases h1 with ⟨a1, a2⟩ | ⟨a1, a2⟩ <;> rcases h2 with ⟨b1, b2⟩ | ⟨b1, b2⟩ <;>
    simp [a1, a2, b1, b2]

theorem containsConn_iff (l : List Connection) (c : Connection) :
    containsConn l c = true ↔ ∃ d ∈ l, Connection.sameEndpoints c d = true := by
  simp [containsConn, List.any_eq_true]

theorem containsConn_of_mem (l : List Connection) (c : Connection) (h : c ∈ l) :
    containsConn l c = true :=
  (containsConn_iff l c).mpr ⟨c, h, sameEndpoints_refl c⟩

theorem any_filter_not_same (n c : Connection)
    (hcn : Connection.sameEndpoints c n = false) (l : List Connection) :
    ((l.filter (fun d => ! Connection.sameEndpoints n d)).any
        (fun d => Connection.sameEndpoints c d)) =
      l.any (fun d => Connection.sameEndpoints c d) := by
  induction l with
  | nil => rfl
  | cons d ds ih =>
    by_cases hnd : Connection.sameEndpoints n d = true
    · have hcd : Connection.sameEndpoints c d = false := by
        by_contra hx
        rw [Bool.not_eq_false] at hx
        have hdn : Connection.sameEndpoints d n = true := by
          rw [sameEndpoints_symm]; exact hnd
        rw [sameEndpoints_trans c d n hx hdn] at hcn
        cases hcn
      simp [List.filter_cons, hnd, List.any_cons, hcd, ih]
    · have hnd2 : Connection.sameEndpoints n d = false := Bool.eq_false_iff.mpr hnd
      simp [List.filter_cons, hnd2, List.any_cons, ih]

theorem containsConn_replaceConn (l : List Connection) (n c : Connection) :
    containsConn (replaceConn l n) c =
      (Connection.sameEndpoints c n || containsConn l c) := by
  by_cases hcn : Connection.sameEndpoints c n = true
  · simp [replaceConn, containsConn, hcn]
  · have hcn2 := Bool.eq_false_iff.mpr hcn
    simp [replaceConn, containsConn, hcn2, any_filter_not_same n c hcn2 l]

theorem containsConn_foldl_replaceConn (new : List Connection) (base : List Connection)
    (c : Connection) :
    containsConn (new.foldl replaceConn base) c =
      (containsConn new c || containsConn base c) := by
  induction new generalizing base with
  | nil => simp [containsConn]
  | cons n rest ih =>
    rw [List.foldl_cons, ih (replaceConn base n), containsConn_replaceConn]
    simp only [containsConn, List.any_cons]
    cases Connection.sameEndpoints c n <;>
      cases rest.any (fun d => Connection.sameEndpoints c d) <;> simp

theorem mem_foldl_replaceConn (new : List Connection) (base : List Connection)
    (c : Connection) (h : c ∈ new.foldl replaceConn base) :
    c ∈ new ∨ (c ∈ base ∧ containsConn new c = false) := by
  induction new generalizing base with
  | nil => exact Or.inr ⟨h, rfl⟩
  | cons n rest ih =>
    simp only [List.foldl_cons] at h
    rcases ih (replaceConn base n) h with hn | ⟨hb, hc⟩
    · exact Or.inl (List.mem_cons_of_mem n hn)
    · rcases List.mem_cons.mp hb with hcn | hcf
      · exact Or.inl (hcn ▸ List.mem_cons_self n rest)
      · have hmem := List.mem_filter.mp hcf
        refine Or.inr ⟨hmem.1, ?_⟩
        simp only [containsConn, List.any_cons, Bool.or_eq_false_iff]
        refine ⟨?_, by simpa [containsConn] using hc⟩
        have := hmem.2
        simp only [Bool.not_eq_eq_eq_not, Bool.not_true] at this
        rw [sameEndpoints_symm] at this
        exact this

theorem filter_not_of_filter_eq_nil {l : List Connection} {p : Connection → Bool}
    (h : l.filter p = []) : l.filter (fun c => ! p c) = l := by
  rw [List.filter_eq_self]
  intro c hc
  have hp := List.filter_eq_nil_iff.mp h c hc
  simp [hp]

/- Lemmas about the two phases of the disconnect-candidate query. -/

theorem mem_keys_discNodes (cfg : Config) (now : Timestamp) (ns : Nodes) (a : Addr)
    (h : a ∈ (discNodes cfg now ns).map (fun p => p.1)) :
    a ∈ ns.map (fun p => p.1) := by
  simp only [discNodes, retainedNodes, List.map_map, List.mem_map,
    List.mem_filter] at h
  obtain ⟨p, ⟨hp, _⟩, hpa⟩ := h
  apply List.mem_map.mpr
  refine ⟨p, hp, ?_⟩
  by_cases hd : shouldDisconnect cfg p.2 = true <;>
    simpa [Function.comp, hd] using hpa

theorem mem_keys_discAddrs (cfg : Config) (ns : Nodes) (a : Addr)
    (h : a ∈ discAddrs cfg ns) : a ∈ ns.map (fun p => p.1) := by
  simp only [discAddrs, retainedNodes, List.mem_map, List.mem_filter] at h
  obtain ⟨p, ⟨⟨hp, _⟩, _⟩, hpa⟩ := h
  exact List.mem_map.mpr ⟨p, hp, hpa⟩

theorem lookupNode_discNodes (cfg : Config) (now : Timestamp) (ns : Nodes)
    (a : Addr) (m : NodeMeta) (hwf : nodesWF ns) (h : lookupNode ns a = some m) :
    lookupNode (discNodes cfg now ns) a =
      if m.connection_failures ≤ cfg.maxConnectionFailureCount then
        some (if shouldDisconnect cfg m = true then m.reset_crawl_state now else m)
      else none := by
  induction ns with
  | nil => cases h
  | cons p ps ih =>
    have hwf2 : nodesWF ps := (List.nodup_cons.mp hwf).2
    have hnk : p.1 ∉ ps.map (fun q => q.1) := (List.nodup_cons.mp hwf).1
    by_cases hpa : p.1 = a
    · have hm : m = p.2 := by
        rw [lookupNode, if_pos hpa] at h
        exact (Option.some_inj.mp h).symm
      subst hm
      by_cases hret : p.2.connection_failures ≤ cfg.maxConnectionFailureCount
      · by_cases hd : shouldDisconnect cfg p.2 = true <;>
          simp [discNodes, retainedNodes, List.filter_cons, hret, hd,
            lookupNode, hpa]
      · have hnone : lookupNode (discNodes cfg now ps) a = none := by
          apply lookupNode_eq_none
          intro hc
          exact hnk (hpa ▸ mem_keys_discNodes cfg now ps a hc)
        simpa [discNodes, retainedNodes, List.filter_cons, hret]
          using hnone
    · have h2 : lookupNode ps a = some m := by
        rwa [lookupNode, if_neg hpa] at h
      have hrec := ih hwf2 h2
      by_cases hret : p.2.connection_failures ≤ cfg.maxConnectionFailureCount
      · by_cases hd : shouldDisconnect cfg p.2 = true <;>
          simpa [discNodes, retainedNodes, List.filter_cons, hret, hd,
            lookupNode, hpa] using hrec
      · simpa [discNodes, retainedNodes, List.filter_cons, hret] using hrec

theorem mem_discAddrs_iff (cfg : Config) (ns : Nodes) (a : Addr) (m : NodeMeta)
    (hwf : nodesWF ns) (h : lookupNode ns a = some m) :
    a ∈ discAddrs cfg ns ↔
      (m.connection_failures ≤ cfg.maxConnectionFailureCount ∧
       shouldDisconnect cfg m = true) := by
  induction ns with
  | nil => cases h
  | cons p ps ih =>
    have hwf2 : nodesWF ps := (List.nodup_cons.mp hwf).2
    have hnk : p.1 ∉ ps.map (fun q => q.1) := (List.nodup_cons.mp hwf).1
    by_cases hpa : p.1 = a
    · have hm : m = p.2 := by
        rw [lookupNode, if_pos hpa] at h
        exact (Option.some_inj.mp h).symm
      subst hm
      have hkey : ∀ x : NodeMeta, (a, x) ∈ ps → False := by
        intro x hx
        apply hnk
        rw [hpa]
        exact List.mem_map.mpr ⟨(a, x), hx, rfl⟩
      by_cases hret : p.2.connection_failures ≤ cfg.maxConnectionFailureCount
      · by_cases hd : shouldDisconnect cfg p.2 = true <;>
          · simp [discAddrs, retainedNodes, List.filter_cons, hret, hd, hpa]
            try exact fun x hx _ => (hkey x hx).elim
      · simp [discAddrs, retainedNodes, List.filter_cons, hret]
        exact fun x hx _ => (hkey x hx).elim
    · have h2 : lookupNode ps a = some m := by
        rwa [lookupNode, if_neg hpa] at h
      have hrec := ih hwf2 h2
      by_cases hret : p.2.connection_failures ≤ cfg.maxConnectionFailureCount
      · by_cases hd : shouldDisconnect cfg p.2 = true <;>
          simpa [discAddrs, retainedNodes, List.filter_cons, hret, hd, hpa,
            Ne.symm hpa] using hrec
      · simpa [discAddrs, retainedNodes, List.filter_cons, hret, Ne.symm hpa]
          using hrec

/- Preservation lemmas used by the reachability claims. -/

theorem lookupNode_insert_isSome (ns : Nodes) (a b : Addr) (m : NodeMeta)
    (h : (lookupNode ns b).isSome) : (lookupNode (insertNode ns a m) b).isSome := by
  by_cases hb : b = a
  · subst hb
    rw [lookupNode_insert_self]
    rfl
  · rwa [lookupNode_insert_ne ns a b m hb]

theorem lookupNode_modify_isSome (ns : Nodes) (a b : Addr) (f : NodeMeta → NodeMeta)
    (h : (lookupNode ns b).isSome) : (lookupNode (modifyNode ns a f) b).isSome := by
  by_cases hb : b = a
  · subst hb
    rw [lookupNode_modify_self]
    rfl
  · rwa [lookupNode_modify_ne ns a b f hb]

theorem mem_nodes_from_connections (l : List Connection) (c : Connection) (h : c ∈ l) :
    c.source ∈ nodes_from_connections l ∧ c.target ∈ nodes_from_connections l := by
  induction l with
  | nil => cases h
  | cons d ds ih =>
    rcases List.mem_cons.mp h with hc | hc
    · subst hc
      simp [nodes_from_connections]
    · have := ih hc
      simp only [nodes_from_connections, List.foldr_cons] at this ⊢
      exact ⟨List.mem_cons_of_mem _ (List.mem_cons_of_mem _ this.1),
             List.mem_cons_of_mem _ (List.mem_cons_of_mem _ this.2)⟩

theorem connsWF_same_eq (l : List Connection) (hwf : connsWF l) (c d : Connection)
    (hc : c ∈ l) (hd : d ∈ l) (h : Connection.sameEndpoints c d = true) : c = d := by
  by_contra hne
  have hsym : Symmetric (fun a b : Connection => Connection.sameEndpoints a b = false) := by
    intro a b hab
    rw [sameEndpoints_symm]
    exact hab
  have hfalse := List.Pairwise.forall hsym hwf hc hd hne
  rw [hfalse] at h
  cases h

theorem asI64_eq (x : Int) (h1 : -(2 ^ 63) ≤ x) (h2 : x < 2 ^ 63) : asI64 x = x := by
  have e : (2 : Int) ^ 63 = 9223372036854775808 := by norm_num
  have e2 : (2 : Int) ^ 64 = 18446744073709551616 := by norm_num
  have h3 : (0 : Int) ≤ x + 2 ^ 63 := by omega
  have h4 : x + 2 ^ 63 < 2 ^ 64 := by omega
  unfold asI64
  rw [Int.emod_eq_of_lt h3 h4]
  omega

/- Claim theorems. -/

/-- A store holding one record for address 1 that carries a reported state and
a timestamp, used to exhibit the behaviour of re-adding an existing address. -/
def c1Store : KnownNetwork := KnownNetwork.empty.received_ping 0 1 5 6 7 8

/-- C1 (counterexample): re-adding address 1, whose record carries a reported
state and a timestamp, does not leave the record unchanged: `add_node` replaces
it with a freshly initialised record. -/
theorem c1_add_node_cex :
    (lookupNode c1Store.nodes 1).isSome = true ∧
    lookupNode (c1Store.add_node 1).nodes 1 ≠ lookupNode c1Store.nodes 1 := by
  decide

/-- C1 (amended): `add_node(addr)` unconditionally inserts a freshly initialised
record for `addr`, overwriting whatever record was there; calling it twice is
the same as calling it once, but an existing record with accumulated state,
counters or timestamps is reset rather than left unchanged. -/
theorem c1_add_node_overwrites (a : Addr) (k : KnownNetwork) :
    lookupNode (k.add_node a).nodes a = some (NodeMeta.new a) ∧
    (k.add_node a).add_node a = k.add_node a := by
  constructor
  · simp [KnownNetwork.add_node, lookupNode_insert_self]
  · cases k with
    | mk ns cs => simp [KnownNetwork.add_node, insertNode_insertNode]

/-- C3: the refresh predicate is true when `last_interaction` is absent, and
otherwise true exactly when the whole elapsed minutes strictly exceed the fixed
crawl interval (state present) or the failure count in minutes (state absent);
`should_be_connected_to` and `addrs_to_connect` answer by this predicate. -/
theorem c3_refresh_predicate (cfg : Config) (now : Timestamp) (m : NodeMeta)
    (k : KnownNetwork) (a : Addr) :
    (m.needs_refreshing cfg now = true ↔
      (m.timestamp = none ∨
       ∃ t, m.timestamp = some t ∧
         wholeMinutes (now - t) >
           (if m.state.isSome then cfg.crawlIntervalMins
            else (m.connection_failures : Int)))) ∧
    (k.should_be_connected_to cfg now a = true ↔
      (lookupNode k.nodes a = none ∨
       ∃ m2, lookupNode k.nodes a = some m2 ∧ m2.needs_refreshing cfg now = true)) ∧
    (a ∈ k.addrs_to_connect cfg now ↔
      ∃ m2, (a, m2) ∈ k.nodes ∧ m2.needs_refreshing cfg now = true) := by
  refine ⟨?_, ?_, ?_⟩
  · cases hts : m.timestamp with
    | none => simp [NodeMeta.needs_refreshing, hts]
    | some t => simp [NodeMeta.needs_refreshing, hts]
  · cases hl : lookupNode k.nodes a with
    | none => simp [KnownNetwork.should_be_connected_to, hl]
    | some m2 => simp [KnownNetwork.should_be_connected_to, hl]
  · constructor
    · intro hmem
      simp only [KnownNetwork.addrs_to_connect, List.mem_map, List.mem_filter] at hmem
      obtain ⟨p, ⟨hp, hq⟩, hpa⟩ := hmem
      refine ⟨p.2, ?_, hq⟩
      have hpe : (a, p.2) = p := by rw [← hpa]
      rw [hpe]
      exact hp
    · rintro ⟨m2, hmem, href⟩
      simp only [KnownNetwork.addrs_to_connect, List.mem_map, List.mem_filter]
      exact ⟨(a, m2), ⟨hmem, href⟩, rfl⟩

/-- The four-node registry of the summary sample: two pending records and two
records reporting version 1 with heights 10 and 20. -/
def c9Store : KnownNetwork :=
  { nodes :=
      [(1, NodeMeta.new 1),
       (2, NodeMeta.new 2),
       (3, { NodeMeta.new 3 with
              state := some { node_type := 0, version := 1, height := 10, state := 0 } }),
       (4, { NodeMeta.new 4 with
              state := some { node_type := 0, version := 1, height := 20, state := 0 } })]
    connections := [] }

/-- C9: over the sample registry of two pending nodes and two nodes with
version 1, heights 10 and 20, the summary reports 4 known nodes, 2 pending,
version histogram mapping only 1 to 2, and height histogram mapping only 10
and 20 to 1 each; pending nodes contribute to no histogram. -/
theorem c9_summary_sample :
    (c9Store.get_node_summary).num_known_nodes = 4 ∧
    (c9Store.get_node_summary).nodes_pending_state = 2 ∧
    (∀ v, (c9Store.get_node_summary).versions v = if v = 1 then some 2 else none) ∧
    (∀ hh, (c9Store.get_node_summary).heights hh =
      if hh = 10 then some 1 else if hh = 20 then some 1 else none) := by
  refine ⟨by decide, by decide, ?_, ?_⟩
  · intro v
    have hv : (c9Store.get_node_summary).versions = histIncr (histIncr emptyHist 1) 1 :=
      rfl
    rw [hv]
    by_cases h1 : v = 1 <;> simp [histIncr, emptyHist, h1]
  · intro hh
    have hv : (c9Store.get_node_summary).heights = histIncr (histIncr emptyHist 10) 20 :=
      rfl
    rw [hv]
    by_cases h1 : hh = 10
    · subst h1
      simp [histIncr, emptyHist]
    · by_cases h2 : hh = 20 <;> simp [histIncr, emptyHist, h1, h2]

/-- C10: the two `u8` counters wrap: one more failed connection outcome on a
record with 255 consecutive failures leaves the counter at 0 (mod 2 ^ 8)
instead of above the eviction threshold, and one more peer-list report on a
record with 255 received reports leaves that counter at 0; so the counters are
not monotonically non-decreasing between resets. -/
theorem c10_counter_wrap (cfg : Config) (now ts : Timestamp) (ps : List Addr)
    (k : KnownNetwork) (a : Addr) (m : NodeMeta)
    (h : lookupNode k.nodes a = some m) :
    (m.connection_failures = 255 →
      lookupNode (k.connected_to_node now a ts false).nodes a =
        some { m with timestamp := some ts, connection_failures := 0 }) ∧
    (m.received_peer_sets = 255 →
      lookupNode (k.received_peers cfg now a ps).nodes a =
        some { m with received_peer_sets := 0, timestamp := some now }) := by
  constructor
  · intro h255
    simp only [KnownNetwork.connected_to_node]
    rw [lookupNode_modify_self, h]
    simp [h255]
  · intro h255
    have hk1 : lookupNode ((k.update_connections cfg now a ps)).nodes a = some m := by
      simp only [KnownNetwork.update_connections]
      exact backfill_pres _ _ _ _ h
    simp only [KnownNetwork.received_peers]
    rw [lookupNode_modify_self, hk1]
    simp [h255]

/-- Configuration used by the C10 witness. -/
def c10Cfg : Config :=
  { crawlIntervalMins := 3, staleCutoffHrs := 4,
    maxConnectionFailureCount := 2, desiredPeerSetCount := 1 }

/-- A record with both counters saturated at 255. -/
def c10Meta : NodeMeta :=
  { NodeMeta.new 1 with received_peer_sets := 255, connection_failures := 255 }

/-- A store holding the saturated record. -/
def c10Store : KnownNetwork := { nodes := [(1, c10Meta)], connections := [] }

/-- C10 (witness): the wrap computed on a concrete store with both counters
at 255. -/
theorem c10_counter_wrap_witness :
    lookupNode (c10Store.connected_to_node 0 1 0 false).nodes 1 =
      some { c10Meta with timestamp := some 0, connection_failures := 0 } ∧
    lookupNode (c10Store.received_peers c10Cfg 0 1 []).nodes 1 =
      some { c10Meta with received_peer_sets := 0, timestamp := some 0 } :=
  ⟨(c10_counter_wrap c10Cfg 0 0 [] c10Store 1 c10Meta (by decide)).1 (by decide),
   (c10_counter_wrap c10Cfg 0 0 [] c10Store 1 c10Meta (by decide)).2 (by decide)⟩

/-- C4: after `addrs_to_disconnect`, a node whose failure count strictly
exceeded the configured maximum at the start of the call is absent from the
registry and absent from the returned list, and every node whose failure count
was at most the maximum is retained. -/
theorem c4_eviction (cfg : Config) (now : Timestamp) (k : KnownNetwork) (a : Addr)
    (m : NodeMeta) (hwf : nodesWF k.nodes) (h : lookupNode k.nodes a = some m) :
    (cfg.maxConnectionFailureCount < m.connection_failures →
      lookupNode (k.addrs_to_disconnect cfg now).2.nodes a = none ∧
      a ∉ (k.addrs_to_disconnect cfg now).1) ∧
    (m.connection_failures ≤ cfg.maxConnectionFailureCount →
      (lookupNode (k.addrs_to_disconnect cfg now).2.nodes a).isSome = true) := by
  have hdisc := lookupNode_discNodes cfg now k.nodes a m hwf h
  constructor
  · intro hgt
    have hnle : ¬ m.connection_failures ≤ cfg.maxConnectionFailureCount := by omega
    constructor
    · show lookupNode (discNodes cfg now k.nodes) a = none
      rw [hdisc, if_neg hnle]
    · intro hc
      have hc2 : a ∈ discAddrs cfg k.nodes := hc
      exact hnle ((mem_discAddrs_iff cfg k.nodes a m hwf h).mp hc2).1
  · intro hle
    show (lookupNode (discNodes cfg now k.nodes) a).isSome = true
    rw [hdisc, if_pos hle]
    rfl

/-- Configuration used by the C4 witness (maximum tolerated failures: 2). -/
def c4Cfg : Config :=
  { crawlIntervalMins := 3, staleCutoffHrs := 4,
    maxConnectionFailureCount := 2, desiredPeerSetCount := 1 }

/-- A record with three consecutive connection failures, past the maximum. -/
def c4Meta : NodeMeta := { NodeMeta.new 1 with connection_failures := 3 }

/-- A store holding one over-the-threshold record and one fresh record. -/
def c4Store : KnownNetwork :=
  { nodes := [(1, c4Meta), (2, NodeMeta.new 2)], connections := [] }

/-- C4 (witness): on the concrete store, address 1 (three failures, maximum 2)
is evicted and not returned, while address 2 (zero failures) is retained. -/
theorem c4_eviction_witness :
    (lookupNode (c4Store.addrs_to_disconnect c4Cfg 0).2.nodes 1 = none ∧
      1 ∉ (c4Store.addrs_to_disconnect c4Cfg 0).1) ∧
    (lookupNode (c4Store.addrs_to_disconnect c4Cfg 0).2.nodes 2).isSome = true :=
  ⟨(c4_eviction c4Cfg 0 c4Store 1 c4Meta (by decide) (by decide)).1 (by decide),
   (c4_eviction c4Cfg 0 c4Store 2 (NodeMeta.new 2) (by decide) (by decide)).2
     (by decide)⟩

/-- Configuration used by the C5 store (desired peer-set count: 1). -/
def c5Cfg : Config :=
  { crawlIntervalMins := 3, staleCutoffHrs := 4,
    maxConnectionFailureCount := 2, desiredPeerSetCount := 1 }

/-- A record with a reported state and one received peer list, so it satisfies
the voluntary-disconnect condition. -/
def c5Meta : NodeMeta :=
  { listening_addr := 1
    state := some { node_type := 0, version := 1, height := 10, state := 0 }
    timestamp := some 0
    received_peer_sets := 1
    connection_failures := 0
    handshake_time := none }

/-- A store holding the record selected for voluntary disconnect. -/
def c5Store : KnownNetwork := { nodes := [(1, c5Meta)], connections := [] }

/-- C5 (counterexample): address 1 is selected for disconnect and its counters
are reset with `last_interaction = now`, yet at that same instant the refresh
predicate is false — `should_be_connected_to` returns `false` — so the node is
not immediately eligible again, contradicting the claim. -/
theorem c5_reset_cex :
    1 ∈ (c5Store.addrs_to_disconnect c5Cfg 0).1 ∧
    lookupNode (c5Store.addrs_to_disconnect c5Cfg 0).2.nodes 1 =
      some (c5Meta.reset_crawl_state 0) ∧
    (c5Store.addrs_to_disconnect c5Cfg 0).2.should_be_connected_to c5Cfg 0 1 =
      false := by
  decide

/-- C5 (amended): a node selected because its state is present and its
peer-list count reached the desired count appears in the returned list, has
both counters reset and `last_interaction = now`; it is again governed by the
refresh predicate, which holds not immediately (for a nonnegative crawl
interval) but exactly once the whole elapsed minutes exceed the steady-state
crawl interval. -/
theorem c5_voluntary_disconnect_reset (cfg : Config) (now : Timestamp)
    (k : KnownNetwork) (a : Addr) (m : NodeMeta)
    (hwf : nodesWF k.nodes) (h : lookupNode k.nodes a = some m)
    (hle : m.connection_failures ≤ cfg.maxConnectionFailureCount)
    (hst : m.state.isSome = true)
    (hps : cfg.desiredPeerSetCount ≤ m.received_peer_sets)
    (hint : 0 ≤ cfg.crawlIntervalMins) :
    a ∈ (k.addrs_to_disconnect cfg now).1 ∧
    lookupNode (k.addrs_to_disconnect cfg now).2.nodes a =
      some (m.reset_crawl_state now) ∧
    (k.addrs_to_disconnect cfg now).2.should_be_connected_to cfg now a = false ∧
    (∀ t2 : Timestamp, wholeMinutes (t2 - now) > cfg.crawlIntervalMins →
      (k.addrs_to_disconnect cfg now).2.should_be_connected_to cfg t2 a = true) := by
  have hsd : shouldDisconnect cfg m = true := by
    simp [shouldDisconnect, hst, hps]
  have hdisc := lookupNode_discNodes cfg now k.nodes a m hwf h
  have hlook : lookupNode (discNodes cfg now k.nodes) a =
      some (m.reset_crawl_state now) := by
    rw [hdisc, if_pos hle, if_pos hsd]
  have hmatch : ∀ t2 : Timestamp,
      (k.addrs_to_disconnect cfg now).2.should_be_connected_to cfg t2 a =
        (m.reset_crawl_state now).needs_refreshing cfg t2 := by
    intro t2
    show KnownNetwork.should_be_connected_to cfg t2 a _ = _
    unfold KnownNetwork.should_be_connected_to
    rw [show lookupNode (k.addrs_to_disconnect cfg now).2.nodes a =
      some (m.reset_crawl_state now) from hlook]
  have hstate : (m.reset_crawl_state now).state.isSome = true := hst
  refine ⟨(mem_discAddrs_iff cfg k.nodes a m hwf h).mpr ⟨hle, hsd⟩, hlook, ?_, ?_⟩
  · rw [hmatch now]
    simp only [NodeMeta.needs_refreshing, NodeMeta.reset_crawl_state]
    simp [hst, wholeMinutes, Int.zero_tdiv, sub_self]
    omega
  · intro t2 ht2
    rw [hmatch t2]
    simp only [NodeMeta.needs_refreshing, NodeMeta.reset_crawl_state]
    simp [hst]
    omega

/-- C5 (witness): the amended statement evaluated on the concrete store. -/
theorem c5_voluntary_disconnect_reset_witness :
    1 ∈ (c5Store.addrs_to_disconnect c5Cfg 0).1 ∧
    lookupNode (c5Store.addrs_to_disconnect c5Cfg 0).2.nodes 1 =
      some (c5Meta.reset_crawl_state 0) ∧
    (c5Store.addrs_to_disconnect c5Cfg 0).2.should_be_connected_to c5Cfg 0 1 =
      false ∧
    (∀ t2 : Timestamp, wholeMinutes (t2 - 0) > c5Cfg.crawlIntervalMins →
      (c5Store.addrs_to_disconnect c5Cfg 0).2.should_be_connected_to c5Cfg t2 1 =
        true) :=
  c5_voluntary_disconnect_reset c5Cfg 0 c5Store 1 c5Meta (by decide) (by decide)
    (by decide) (by decide) (by decide) (by decide)

/-- C8: the mean handshake time is absent exactly when no record carries a
handshake duration; on a nonempty sample whose millisecond sum fits in i64 it
is the truncated integer quotient of the summed whole milliseconds by the
sample size, and the division is never taken on an empty sample. -/
theorem c8_summary_avg (k : KnownNetwork) :
    ((k.get_node_summary).avg_handshake_time_ms = none ↔ k.handshake_times = []) ∧
    (k.handshake_times ≠ [] →
      -(2 ^ 63) ≤ wholeMilliseconds (k.handshake_times.foldl (fun a b => a + b) 0) →
      wholeMilliseconds (k.handshake_times.foldl (fun a b => a + b) 0) < 2 ^ 63 →
      (k.get_node_summary).avg_handshake_time_ms =
        some ((wholeMilliseconds (k.handshake_times.foldl (fun a b => a + b) 0)).tdiv
          (k.handshake_times.length : Int))) := by
  have havg : (k.get_node_summary).avg_handshake_time_ms =
      if k.handshake_times.isEmpty then none
      else
        some ((asI64 (wholeMilliseconds
            (k.handshake_times.foldl (fun a b => a + b) 0))).tdiv
          (k.handshake_times.length : Int)) := rfl
  constructor
  · rw [havg]
    cases hl : k.handshake_times with
    | nil => simp
    | cons x xs => simp
  · intro hne h1 h2
    have he : k.handshake_times.isEmpty = false := by
      cases hl : k.handshake_times with
      | nil => exact absurd hl hne
      | cons x xs => rfl
    rw [havg, he]
    simp only [Bool.false_eq_true, if_false]
    rw [asI64_eq _ h1 h2]

/-- A store with two handshake samples of 5 ms and 2 ms. -/
def c8Store : KnownNetwork :=
  { nodes := [(1, { NodeMeta.new 1 with handshake_time := some 5000000 }),
              (2, { NodeMeta.new 2 with handshake_time := some 2000000 })]
    connections := [] }

/-- C8 (witness): on the concrete two-sample store the mean is the truncated
quotient (5 + 2) / 2 = 3 whole milliseconds and is not absent. -/
theorem c8_summary_avg_witness :
    ((c8Store.get_node_summary).avg_handshake_time_ms = none ↔
      c8Store.handshake_times = []) ∧
    (c8Store.get_node_summary).avg_handshake_time_ms =
      some ((wholeMilliseconds (c8Store.handshake_times.foldl (fun a b => a + b) 0)).tdiv
        (c8Store.handshake_times.length : Int)) :=
  ⟨(c8_summary_avg c8Store).1,
   (c8_summary_avg c8Store).2 (by decide) (by decide) (by decide)⟩

/-- A store whose record for address 1 carries a reported state, used to show
that `add_node` reverts the state to absent. -/
def c6Store : KnownNetwork := KnownNetwork.empty.received_ping 0 1 5 6 7 8

/-- C6 (counterexample): address 1 has `reported_state` set, and the subsequent
operation `add_node(1)` makes it absent again while the record still exists,
contradicting the claim that the transition is one-way under every
operation. -/
theorem c6_state_reverted_cex :
    (lookupNode c6Store.nodes 1).map (fun m => m.state.isSome) = some true ∧
    (lookupNode (c6Store.add_node 1).nodes 1).map (fun m => m.state.isSome) =
      some false := by
  decide

/-- C6 (amended): once `reported_state` is set, no operation other than
`add_node` makes it absent while the record exists; `add_node`, however,
replaces the whole record with a fresh pending one. -/
theorem c6_state_one_way (cfg : Config) (op : Op) (k : KnownNetwork) (a : Addr)
    (m m' : NodeMeta) (hwf : nodesWF k.nodes) (hop : op.isAddNode = false)
    (h : lookupNode k.nodes a = some m) (hst : m.state.isSome = true)
    (h' : lookupNode (op.apply cfg k).nodes a = some m') :
    m'.state.isSome = true := by
  cases op with
  | addNode b => cases hop
  | ping now s nt v st ht =>
    simp only [Op.apply, KnownNetwork.received_ping] at h'
    by_cases has : a = s
    · subst has
      rw [lookupNode_modify_self] at h'
      rw [← Option.some_inj.mp h']
      rfl
    · rw [lookupNode_modify_ne _ _ _ _ has, h] at h'
      rw [← Option.some_inj.mp h']
      exact hst
  | peerList now s addrs =>
    simp only [Op.apply, KnownNetwork.received_peers] at h'
    have hk1 : lookupNode (k.update_connections cfg now s addrs).nodes a = some m := by
      show lookupNode (backfill k.nodes _) a = some m
      exact backfill_pres _ _ _ _ h
    by_cases has : a = s
    · subst has
      rw [lookupNode_modify_self, hk1] at h'
      rw [← Option.some_inj.mp h']
      exact hst
    · rw [lookupNode_modify_ne _ _ _ _ has, hk1] at h'
      rw [← Option.some_inj.mp h']
      exact hst
  | outcome now s ts succ =>
    simp only [Op.apply, KnownNetwork.connected_to_node] at h'
    by_cases has : a = s
    · subst has
      rw [lookupNode_modify_self, h] at h'
      rw [← Option.some_inj.mp h']
      cases succ <;> simpa using hst
    · rw [lookupNode_modify_ne _ _ _ _ has, h] at h'
      rw [← Option.some_inj.mp h']
      exact hst
  | disconnectQuery now =>
    simp only [Op.apply] at h'
    have h2 : lookupNode (discNodes cfg now k.nodes) a = some m' := h'
    rw [lookupNode_discNodes cfg now k.nodes a m hwf h] at h2
    by_cases hle : m.connection_failures ≤ cfg.maxConnectionFailureCount
    · rw [if_pos hle] at h2
      rw [← Option.some_inj.mp h2]
      by_cases hsd : shouldDisconnect cfg m = true
      · simpa [hsd, NodeMeta.reset_crawl_state] using hst
      · simpa [hsd] using hst
    · rw [if_neg hle] at h2
      cases h2

/-- Configuration used by the C6 witness. -/
def c6Cfg : Config :=
  { crawlIntervalMins := 3, staleCutoffHrs := 4,
    maxConnectionFailureCount := 2, desiredPeerSetCount := 1 }

/-- The record of address 1 of `c6Store` before the witness operation. -/
def c6MetaBefore : NodeMeta :=
  { listening_addr := 1
    state := some { node_type := 5, version := 6, height := 8, state := 7 }
    timestamp := some 0
    received_peer_sets := 0
    connection_failures := 0
    handshake_time := none }

/-- The record of address 1 after the witness ping operation. -/
def c6MetaAfter : NodeMeta :=
  { listening_addr := 1
    state := some { node_type := 2, version := 3, height := 5, state := 4 }
    timestamp := some 9
    received_peer_sets := 0
    connection_failures := 0
    handshake_time := none }

/-- C6 (witness): after a further ping (an operation other than `add_node`)
on the stateful record of `c6Store`, the state is still present. -/
theorem c6_state_one_way_witness :
    lookupNode ((Op.ping 9 1 2 3 4 5).apply c6Cfg c6Store).nodes 1 =
      some c6MetaAfter ∧
    c6MetaAfter.state.isSome = true :=
  ⟨by decide,
   c6_state_one_way c6Cfg (Op.ping 9 1 2 3 4 5) c6Store 1 c6MetaBefore c6MetaAfter
     (by decide) (by decide) (by decide) (by decide) (by decide)⟩

/-- Preservation of the link-endpoint invariant by every operation except the
disconnect-candidate query. -/
theorem linkinv_apply (cfg : Config) (op : Op) (k : KnownNetwork)
    (hop : op.isDisconnectQuery = false)
    (h : linkEndpointsRegistered k = true) :
    linkEndpointsRegistered (op.apply cfg k) = true := by
  cases op with
  | disconnectQuery now => cases hop
  | addNode a =>
    simp only [Op.apply, KnownNetwork.add_node, linkEndpointsRegistered,
      List.all_eq_true, Bool.and_eq_true] at h ⊢
    intro c hc
    exact ⟨lookupNode_insert_isSome _ _ _ _ ((h c hc).1),
           lookupNode_insert_isSome _ _ _ _ ((h c hc).2)⟩
  | ping now s nt v st ht =>
    simp only [Op.apply, KnownNetwork.received_ping, linkEndpointsRegistered,
      List.all_eq_true, Bool.and_eq_true] at h ⊢
    intro c hc
    exact ⟨lookupNode_modify_isSome _ _ _ _ ((h c hc).1),
           lookupNode_modify_isSome _ _ _ _ ((h c hc).2)⟩
  | outcome now s ts succ =>
    simp only [Op.apply, KnownNetwork.connected_to_node, linkEndpointsRegistered,
      List.all_eq_true, Bool.and_eq_true] at h ⊢
    intro c hc
    exact ⟨lookupNode_modify_isSome _ _ _ _ ((h c hc).1),
           lookupNode_modify_isSome _ _ _ _ ((h c hc).2)⟩
  | peerList now s addrs =>
    simp only [Op.apply, KnownNetwork.received_peers, KnownNetwork.update_connections,
      linkEndpointsRegistered, List.all_eq_true, Bool.and_eq_true]
    intro c hc
    have hmem := mem_nodes_from_connections _ c hc
    exact ⟨lookupNode_modify_isSome _ _ _ _ (backfill_covers _ _ _ hmem.1),
           lookupNode_modify_isSome _ _ _ _ (backfill_covers _ _ _ hmem.2)⟩

/-- Configuration used by the C7 counterexample (maximum failures: 2). -/
def c7Cfg : Config :=
  { crawlIntervalMins := 3, staleCutoffHrs := 4,
    maxConnectionFailureCount := 2, desiredPeerSetCount := 1 }

/-- A reachable run: a peer-list report creates the link {1, 2} and backfills
both records, then three failed connection outcomes on node 2 push it past the
maximum, and the disconnect-candidate query evicts it. -/
def c7Ops : List Op :=
  [Op.peerList 0 1 [2], Op.outcome 0 2 0 false, Op.outcome 0 2 0 false,
   Op.outcome 0 2 0 false, Op.disconnectQuery 0]

/-- C7 (counterexample): after the run `c7Ops` from the empty store, the link
{1, 2} is still known but address 2 has no record, so the claimed invariant
fails in a reachable state. -/
theorem c7_invariant_cex :
    linkEndpointsRegistered (run c7Cfg c7Ops) = false ∧
    containsConn (run c7Cfg c7Ops).connections (Connection.new 1 2 0) = true ∧
    lookupNode (run c7Cfg c7Ops).nodes 2 = none := by
  decide

/-- C7 (amended): in every state reachable from the empty store by operations
other than the disconnect-candidate query, every address appearing as an
endpoint of a known link has a record in the registry; the eviction phase of
`addrs_to_disconnect` can break this by removing a node that still appears in
links. -/
theorem c7_link_endpoints (cfg : Config) (ops : List Op)
    (h : ops.all (fun op => ! op.isDisconnectQuery) = true) :
    linkEndpointsRegistered (run cfg ops) = true := by
  suffices hgen : ∀ (l : List Op) (k : KnownNetwork),
      l.all (fun op => ! op.isDisconnectQuery) = true →
      linkEndpointsRegistered k = true →
      linkEndpointsRegistered (l.foldl (fun k op => op.apply cfg k) k) = true by
    exact hgen ops KnownNetwork.empty h rfl
  intro l
  induction l with
  | nil => exact fun k _ hk => hk
  | cons op rest ih =>
    intro k hall hk
    simp only [List.all_cons, Bool.and_eq_true] at hall
    rw [List.foldl_cons]
    apply ih _ hall.2
    apply linkinv_apply cfg op k ?_ hk
    simpa using hall.1

/-- C7 (witness): a concrete disconnect-free run keeps the invariant. -/
theorem c7_link_endpoints_witness :
    linkEndpointsRegistered
      (run c7Cfg [Op.peerList 0 1 [2, 3], Op.addNode 4, Op.outcome 0 3 0 false]) =
      true :=
  c7_link_endpoints c7Cfg
    [Op.peerList 0 1 [2, 3], Op.addNode 4, Op.outcome 0 3 0 false] (by decide)

/-- A connection that the removal filter does not select survives the removal
phase. -/
theorem mem_connsAfterRemoval (cfg : Config) (now : Timestamp) (source : Addr)
    (peers : List Addr) (conns : List Connection) (hwf : connsWF conns)
    (c : Connection) (hc : c ∈ conns)
    (hf : removeCond cfg now source (peers.map (fun p => Connection.new source p now))
      c = false) :
    c ∈ connsAfterRemoval cfg now source peers conns := by
  unfold connsAfterRemoval
  by_cases he : (conns.filter (removeCond cfg now source
      (peers.map (fun p => Connection.new source p now)))).isEmpty
  · rw [if_pos he]
    exact hc
  · rw [if_neg he]
    apply List.mem_filter.mpr
    refine ⟨hc, ?_⟩
    rw [Bool.not_eq_true']
    by_contra hx
    rw [Bool.not_eq_false] at hx
    obtain ⟨d, hd, hsame⟩ := (containsConn_iff _ _).mp hx
    have hdm := List.mem_filter.mp hd
    have hcd : c = d := connsWF_same_eq conns hwf c d hc hdm.1 hsame
    rw [← hcd] at hdm
    rw [hdm.2] at hf
    cases hf

/-- A connection that the removal filter selects has no same-pair survivor in
the removal phase. -/
theorem not_contains_connsAfterRemoval (cfg : Config) (now : Timestamp)
    (source : Addr) (peers : List Addr) (conns : List Connection)
    (c : Connection) (hc : c ∈ conns)
    (hr : removeCond cfg now source (peers.map (fun p => Connection.new source p now))
      c = true) :
    containsConn (connsAfterRemoval cfg now source peers conns) c = false := by
  have hcr : c ∈ conns.filter (removeCond cfg now source
      (peers.map (fun p => Connection.new source p now))) :=
    List.mem_filter.mpr ⟨hc, hr⟩
  have hne : (conns.filter (removeCond cfg now source
      (peers.map (fun p => Connection.new source p now)))).isEmpty = false := by
    cases hfe : conns.filter (removeCond cfg now source
        (peers.map (fun p => Connection.new source p now))) with
    | nil =>
      rw [hfe] at hcr
      cases hcr
    | cons x xs => rfl
  unfold connsAfterRemoval
  rw [if_neg (by simp [hne])]
  rw [Bool.eq_false_iff]
  intro hx
  obtain ⟨d, hd, hsame⟩ := (containsConn_iff _ _).mp hx
  have hdm := List.mem_filter.mp hd
  have hdr : containsConn (conns.filter (removeCond cfg now source
      (peers.map (fun p => Connection.new source p now)))) d = true :=
    (containsConn_iff _ _).mpr ⟨c, hcr, by rw [sameEndpoints_symm]; exact hsame⟩
  have := hdm.2
  rw [Bool.not_eq_eq_eq_not, Bool.not_true, hdr] at this
  cases this

/-- C2: under a peer-list report from `source`, a pre-existing link is removed
(no same-pair link survives) exactly when it is absent from the reported link
set, touches `source`, and is older than the staleness cutoff in whole hours;
and every reported link is present afterwards with its timestamp set to the
report time (inserted or refreshed). -/
theorem c2_peer_list_reconciliation (cfg : Config) (now : Timestamp)
    (source : Addr) (peers : List Addr) (k : KnownNetwork)
    (hwf : connsWF k.connections) :
    (∀ c ∈ k.connections,
      (containsConn (k.received_peers cfg now source peers).connections c = false ↔
        (containsConn (peers.map (fun p => Connection.new source p now)) c = false ∧
         (c.source = source ∨ c.target = source) ∧
         wholeHours (now - c.last_seen) > cfg.staleCutoffHrs))) ∧
    (∀ p ∈ peers, ∃ c ∈ (k.received_peers cfg now source peers).connections,
      Connection.sameEndpoints c (Connection.new source p now) = true ∧
      c.last_seen = now) := by
  have hconns : (k.received_peers cfg now source peers).connections =
      (peers.map (fun p => Connection.new source p now)).foldl replaceConn
        (connsAfterRemoval cfg now source peers k.connections) := rfl
  constructor
  · intro c hc
    rw [hconns, containsConn_foldl_replaceConn]
    constructor
    · intro hfalse
      rw [Bool.or_eq_false_iff] at hfalse
      by_cases hrc : removeCond cfg now source
          (peers.map (fun p => Connection.new source p now)) c = true
      · refine ⟨hfalse.1, ?_⟩
        simp only [removeCond, Bool.and_eq_true, Bool.not_eq_eq_eq_not,
          Bool.not_true, Bool.or_eq_true, decide_eq_true_eq] at hrc
        exact ⟨hrc.1.2, hrc.2⟩
      · exfalso
        have hmem := mem_connsAfterRemoval cfg now source peers k.connections hwf c
          hc (Bool.eq_false_iff.mpr hrc)
        have hcont := containsConn_of_mem _ _ hmem
        rw [hfalse.2] at hcont
        cases hcont
    · rintro ⟨hnc, htouch, hstale⟩
      have hrc : removeCond cfg now source
          (peers.map (fun p => Connection.new source p now)) c = true := by
        simp only [removeCond, Bool.and_eq_true, Bool.not_eq_eq_eq_not,
          Bool.not_true, Bool.or_eq_true, decide_eq_true_eq]
        exact ⟨⟨hnc, htouch⟩, hstale⟩
      rw [Bool.or_eq_false_iff]
      exact ⟨hnc,
        not_contains_connsAfterRemoval cfg now source peers k.connections c hc hrc⟩
  · intro p hp
    have hmemnew : Connection.new source p now ∈
        peers.map (fun q => Connection.new source q now) :=
      List.mem_map.mpr ⟨p, hp, rfl⟩
    have hcontains : containsConn
        ((peers.map (fun q => Connection.new source q now)).foldl replaceConn
          (connsAfterRemoval cfg now source peers k.connections))
        (Connection.new source p now) = true := by
      rw [containsConn_foldl_replaceConn, containsConn_of_mem _ _ hmemnew]
      rfl
    obtain ⟨d, hd, hsame⟩ := (containsConn_iff _ _).mp hcontains
    rcases mem_foldl_replaceConn _ _ d hd with hdn | ⟨_, hdc⟩
    · obtain ⟨q, _, hdq⟩ := List.mem_map.mp hdn
      refine ⟨d, ?_, ?_, ?_⟩
      · rw [hconns]
        exact hd
      · rw [sameEndpoints_symm]
        exact hsame
      · rw [← hdq]
        rfl
    · exfalso
      have hdcont : containsConn (peers.map (fun q => Connection.new source q now))
          d = true :=
        (containsConn_iff _ _).mpr
          ⟨Connection.new source p now, hmemnew, by rw [sameEndpoints_symm]; exact hsame⟩
      rw [hdc] at hdcont
      cases hdcont

/-- A pre-seeded connection list for the C2 witness: the link {1, 2} is five
hours old (past the four-hour cutoff) and {1, 3} is two hours old. -/
def c2Store : KnownNetwork :=
  { nodes := []
    connections :=
      [{ source := 1, target := 2, last_seen := -(5 * nsPerHour) },
       { source := 1, target := 3, last_seen := -(2 * nsPerHour) }] }

/-- Configuration used by the C2 witness (stale cutoff: 4 hours). -/
def c2Cfg : Config :=
  { crawlIntervalMins := 3, staleCutoffHrs := 4,
    maxConnectionFailureCount := 2, desiredPeerSetCount := 1 }

/-- C2 (witness): the reconciliation statement evaluated on the seeded store
for a report from node 1 listing only node 4. -/
theorem c2_peer_list_reconciliation_witness :
    (∀ c ∈ c2Store.connections,
      (containsConn (c2Store.received_peers c2Cfg 0 1 [4]).connections c = false ↔
        (containsConn ([4].map (fun p => Connection.new 1 p 0)) c = false ∧
         (c.source = 1 ∨ c.target = 1) ∧
         wholeHours (0 - c.last_seen) > c2Cfg.staleCutoffHrs))) ∧
    (∀ p ∈ [4], ∃ c ∈ (c2Store.received_peers c2Cfg 0 1 [4]).connections,
      Connection.sameEndpoints c (Connection.new 1 p 0) = true ∧
      c.last_seen = 0) :=
  c2_peer_list_reconciliation c2Cfg 0 1 [4] c2Store (by decide)

end Crawler
